import Mathlib

set_option linter.unusedVariables false

/-!
A shallow embedding of the media-variation pipeline of `spoof_bot.py`.

External library operations (PIL, numpy, moviepy, zipfile) are represented
symbolically: every image or clip operation becomes a constructor recording the
operation applied and its parameters, so a produced buffer is a faithful record
of the exact operation chain the source code builds.  Ambient randomness
(`random.uniform`, `random.randint`, `random.random`, `random.choice`,
`np.random.normal`) is passed in explicitly as records of draws, one record per
variation, mirroring the order in which the source samples them.  Fallible
steps (image decode, video decode/export) return `Except`; decoding itself is
an external-library call and is passed in as a function parameter.  The numeric
content of the Gaussian-noise step (lines 96-98 of the source), which works on
concrete integer pixel arrays, is additionally modelled pixelwise in
`noise_step` below.
-/

/-- The spatial filters the source chooses from:
`random.choice([ImageFilter.SMOOTH, ImageFilter.DETAIL, ImageFilter.SHARPEN])`
(line 91-93). -/
inductive FilterKind
| smooth
| detail
| sharpen
deriving DecidableEq

/-- `random.choice` over the three-element filter list, with `u` the chosen
index. -/
def filter_choice (u : Nat) : FilterKind :=
  match u % 3 with
  | 0 => FilterKind.smooth
  | 1 => FilterKind.detail
  | _ => FilterKind.sharpen

/-- `random.uniform a b` modelled with an explicit unit-interval draw `u`:
the sampled value is `a + (b - a) * u`. -/
def uniform (a b u : ℚ) : ℚ := a + (b - a) * u

/-- The raw random draws consumed by one iteration of the loop in
`generate_variations` (lines 53-104), in the order the source samples them.
Fields `uf`, `ua`, `ur`, `ug`, `ub`, `ubr`, `uco`, `ucl`, `ush` stand for
`random.uniform` unit draws; `dx`, `dy` are the `random.randint(-2, 2)`
results; `ufi` indexes the `random.choice` filter pick. -/
structure Draws where
  uf : ℚ
  ua : ℚ
  ur : ℚ
  ug : ℚ
  ub : ℚ
  dx : ℤ
  dy : ℤ
  ubr : ℚ
  uco : ℚ
  ucl : ℚ
  ush : ℚ
  ufi : Nat
deriving DecidableEq

/-- The fully resolved parameters of one image variation. -/
structure Plan where
  factor : ℚ
  angle : ℚ
  gainR : ℚ
  gainG : ℚ
  gainB : ℚ
  dx : ℤ
  dy : ℤ
  brightness : ℚ
  contrast : ℚ
  color : ℚ
  sharpness : ℚ
  filt : FilterKind
deriving DecidableEq

/-- Resolution of one variation's draws into concrete parameters, with the
interval bounds the source hardcodes: resize `uniform(0.98, 1.02)` (line 57),
rotation `uniform(-0.3, 0.3)` (line 61), per-channel gains
`uniform(0.99, 1.01)` (lines 66-68), translation `randint(-2, 2)` (line 72),
the four enhancement factors `uniform(0.9, 1.1)` (line 88), and the filter
choice (line 91).  Note that the enhancement interval is the constant
`(0.9, 1.1)`: the `modification_level` argument of `generate_variations` is
never consulted anywhere in the source. -/
def mkPlan (d : Draws) : Plan :=
  ⟨uniform (49/50) (51/50) d.uf,
   uniform (-(3/10)) (3/10) d.ua,
   uniform (99/100) (101/100) d.ur,
   uniform (99/100) (101/100) d.ug,
   uniform (99/100) (101/100) d.ub,
   d.dx, d.dy,
   uniform (9/10) (11/10) d.ubr,
   uniform (9/10) (11/10) d.uco,
   uniform (9/10) (11/10) d.ucl,
   uniform (9/10) (11/10) d.ush,
   filter_choice d.ufi⟩

/-- Symbolic PIL images: the canonical decoded RGB buffer plus one constructor
per operation the source applies, each recording its parameters. -/
inductive PILImage
| source (w h : Nat)
| resize (w h : Nat) (img : PILImage)
| rotate (angle : ℚ) (img : PILImage)
| channelGain (r g b : ℚ) (img : PILImage)
| translate (dx dy : ℤ) (img : PILImage)
| enhanceBrightness (f : ℚ) (img : PILImage)
| enhanceContrast (f : ℚ) (img : PILImage)
| enhanceColor (f : ℚ) (img : PILImage)
| enhanceSharpness (f : ℚ) (img : PILImage)
| spatialFilter (k : FilterKind) (img : PILImage)
| gaussNoise (sigma : ℚ) (img : PILImage)
deriving DecidableEq

/-- Pixel dimensions of a symbolic image.  `resize` sets the size; `rotate` is
called without `expand` so it preserves the canvas; `point`/`merge`,
`transform` (called with `modified.size`), the enhancement passes, the 3x3
built-in filters and the pixelwise noise all preserve the size. -/
def PILImage.size : PILImage → Nat × Nat
| .source w h => (w, h)
| .resize w h _ => (w, h)
| .rotate _ img => img.size
| .channelGain _ _ _ img => img.size
| .translate _ _ img => img.size
| .enhanceBrightness _ img => img.size
| .enhanceContrast _ img => img.size
| .enhanceColor _ img => img.size
| .enhanceSharpness _ img => img.size
| .spatialFilter _ img => img.size
| .gaussNoise _ img => img.size

/-- An encoded JPEG buffer: `modified.save(buf, format='JPEG', quality=95,
optimize=True)` (line 103).  The source passes no `subsampling` argument, so
the field records `none` (encoder default). -/
inductive Buffer
| encodeJPEG (quality : Nat) (optimize : Bool) (subsampling : Option Nat) (img : PILImage)
deriving DecidableEq

/-- The quality parameter of an encoded buffer. -/
def Buffer.quality : Buffer → Nat
| .encodeJPEG q _ _ _ => q

/-- The optimize flag of an encoded buffer. -/
def Buffer.optimize : Buffer → Bool
| .encodeJPEG _ o _ _ => o

/-- The chroma-subsampling parameter of an encoded buffer (`none` when the
encoder default is used). -/
def Buffer.subsampling : Buffer → Option Nat
| .encodeJPEG _ _ s _ => s

/-- Pixel dimensions of the image inside an encoded buffer. -/
def Buffer.size : Buffer → Nat × Nat
| .encodeJPEG _ _ _ img => img.size

/-- Tags naming the pipeline operations, used to observe the order in which a
produced buffer was built. -/
inductive StepTag
| resizeT
| rotateT
| gainT
| translateT
| brightT
| contrastT
| colorT
| sharpT
| filterT
| noiseT
| encodeT
deriving DecidableEq

/-- The operation trace of a symbolic image, listed from the first operation
applied to the last. -/
def PILImage.trace : PILImage → List StepTag
| .source _ _ => []
| .resize _ _ img => img.trace ++ [StepTag.resizeT]
| .rotate _ img => img.trace ++ [StepTag.rotateT]
| .channelGain _ _ _ img => img.trace ++ [StepTag.gainT]
| .translate _ _ img => img.trace ++ [StepTag.translateT]
| .enhanceBrightness _ img => img.trace ++ [StepTag.brightT]
| .enhanceContrast _ img => img.trace ++ [StepTag.contrastT]
| .enhanceColor _ img => img.trace ++ [StepTag.colorT]
| .enhanceSharpness _ img => img.trace ++ [StepTag.sharpT]
| .spatialFilter _ img => img.trace ++ [StepTag.filterT]
| .gaussNoise _ img => img.trace ++ [StepTag.noiseT]

/-- The operation trace of an encoded buffer. -/
def Buffer.trace : Buffer → List StepTag
| .encodeJPEG _ _ _ img => img.trace ++ [StepTag.encodeT]

/-- Symbolic moviepy clips: the decoded source handle plus one constructor per
effect the video path applies. -/
inductive Clip
| source (w h : Nat) (duration : ℚ) (fps : Option ℚ)
| fxColor (f : ℚ) (c : Clip)
| fxLumContrast (lum contrast : ℚ) (c : Clip)
| fxGamma (g : ℚ) (c : Clip)
| cropC (x1 y1 x2 y2 : Nat) (c : Clip)
| subclipC (a b : ℚ) (c : Clip)
deriving DecidableEq

/-- Frame dimensions of a symbolic clip: color/luminance/gamma effects and
subclip preserve them; crop sets them from its box. -/
def Clip.size : Clip → Nat × Nat
| .source w h _ _ => (w, h)
| .fxColor _ c => c.size
| .fxLumContrast _ _ c => c.size
| .fxGamma _ c => c.size
| .cropC x1 y1 x2 y2 _ => (x2 - x1, y2 - y1)
| .subclipC _ _ c => c.size

/-- Duration of a symbolic clip: effects and crop preserve it; `subclip a b`
has duration `b - a`. -/
def Clip.duration : Clip → ℚ
| .source _ _ d _ => d
| .fxColor _ c => c.duration
| .fxLumContrast _ _ c => c.duration
| .fxGamma _ c => c.duration
| .cropC _ _ _ _ c => c.duration
| .subclipC a b _ => b - a

/-- The raw random draws consumed by one call of `create_video_variation`
(lines 156-198): the effect-branch uniform draws, the `random.random()` crop
gate, and the crop-fraction draw. -/
structure VideoDraws where
  uc : ℚ
  ulum : ℚ
  ucon : ℚ
  ug : ℚ
  uc2 : ℚ
  ulum2 : ℚ
  ucon2 : ℚ
  cropGate : ℚ
  ucropf : ℚ
deriving DecidableEq

/-- Byte blobs moving through the system: raw input bytes, an encoded JPEG
image buffer, or an exported mp4 clip. -/
inductive Bytes
| raw (bs : List Nat)
| jpeg (b : Buffer)
| mp4 (c : Clip)
deriving DecidableEq

/-- The error classifications the source can raise out of the modelled code:
an image or video decode failure, the missing-moviepy guard of
`process_video_variations` (line 111-112), and a video export failure.
The source has no path that rejects a variation count. -/
inductive Err
| decodeError
| videoUnsupported
| exportError
deriving DecidableEq

/-- `int(s * factor)` of line 58: the resized dimension, truncated toward zero
(the operands are nonnegative, so this is the floor). -/
def resizedDim (s : Nat) (f : ℚ) : Nat := (⌊(s : ℚ) * f⌋).toNat

/-- The body of one iteration of the loop in `generate_variations`
(lines 53-104), applied to a `w` by `h` canonical RGB source.  The four
`ImageEnhance` objects of lines 81-86 are all constructed from the image bound
to `modified` at that moment (the translation output `m4`); each
`en.enhance(...)` call of line 88 transforms that captured image and rebinds
`modified`, so the brightness, contrast and color results are discarded and
only the final sharpness enhancement reaches the filter step.  The Gaussian
noise of line 97 uses the fixed standard deviation 0.2, and the save of
line 103 uses the fixed quality 95 with `optimize=True` and no subsampling
argument. -/
def applyVariation (w h : Nat) (p : Plan) : Buffer :=
  let m1 := PILImage.resize (resizedDim w p.factor) (resizedDim h p.factor) (PILImage.source w h)
  let m2 := PILImage.rotate p.angle m1
  let m3 := PILImage.channelGain p.gainR p.gainG p.gainB m2
  let m4 := PILImage.translate p.dx p.dy m3
  let _e1 := PILImage.enhanceBrightness p.brightness m4
  let _e2 := PILImage.enhanceContrast p.contrast m4
  let _e3 := PILImage.enhanceColor p.color m4
  let m5 := PILImage.enhanceSharpness p.sharpness m4
  let m6 := PILImage.spatialFilter p.filt m5
  let m7 := PILImage.gaussNoise (1/5) m6
  Buffer.encodeJPEG 95 true none m7

/-- `generate_variations(input_bytes, variation_count, modification_level)`
(lines 45-106).  `decode` stands for `Image.open(...).convert('RGB')`: it
yields the canonical source dimensions or fails.  The count is an integer, as
in the source, and `range(variation_count)` iterates `max(variation_count, 0)`
times.  `modification_level` is accepted, as in the source signature, and is
never used.  The function performs no validation of the count: it decodes,
then loops. -/
def generate_variations (decode : Bytes → Option (Nat × Nat)) (input_bytes : Bytes)
    (variation_count : ℤ) (modification_level : ℚ) (draws : Nat → Draws) :
    Except Err (List Buffer) :=
  match decode input_bytes with
  | none => Except.error Err.decodeError
  | some (w, h) =>
      Except.ok ((List.range variation_count.toNat).map fun i =>
        applyVariation w h (mkPlan (draws i)))

/-- `create_video_variation(clip, variation_index)` (lines 156-200): the
effect branch selected by equality tests on the index (0, 1, 2, otherwise the
milder combination), then the optional 2-5 percent crop behind the
`random.random() > 0.5` gate, then the 30-second duration clamp. -/
def create_video_variation (clip : Clip) (variation_index : Nat) (d : VideoDraws) : Clip :=
  let processed :=
    if variation_index = 0 then
      Clip.fxColor (uniform (9/10) (11/10) d.uc) clip
    else if variation_index = 1 then
      Clip.fxLumContrast (uniform (-5) 5 d.ulum) (uniform (9/10) (11/10) d.ucon) clip
    else if variation_index = 2 then
      Clip.fxGamma (uniform (9/10) (11/10) d.ug) clip
    else
      Clip.fxLumContrast (uniform (-3) 3 d.ulum2) (uniform (19/20) (21/20) d.ucon2)
        (Clip.fxColor (uniform (19/20) (21/20) d.uc2) clip)
  let processed :=
    if (1/2 : ℚ) < d.cropGate then
      let w : Nat := processed.size.1
      let h : Nat := processed.size.2
      let crop_factor := uniform (1/50) (1/20) d.ucropf
      let crop_pixels_w := (⌊(w : ℚ) * crop_factor⌋).toNat
      let crop_pixels_h := (⌊(h : ℚ) * crop_factor⌋).toNat
      Clip.cropC crop_pixels_w crop_pixels_h (w - crop_pixels_w) (h - crop_pixels_h) processed
    else processed
  if (30 : ℚ) < processed.duration then Clip.subclipC 0 30 processed else processed

/-- Modelled from the spec: the same per-variation video transform, but with
the effect class selected by `variationIndex mod 4` as the spec describes,
keeping the crop and duration-clamp tail identical to the source. -/
def create_video_variation_by_mod (clip : Clip) (variation_index : Nat) (d : VideoDraws) : Clip :=
  let processed :=
    match variation_index % 4 with
    | 0 => Clip.fxColor (uniform (9/10) (11/10) d.uc) clip
    | 1 => Clip.fxLumContrast (uniform (-5) 5 d.ulum) (uniform (9/10) (11/10) d.ucon) clip
    | 2 => Clip.fxGamma (uniform (9/10) (11/10) d.ug) clip
    | _ => Clip.fxLumContrast (uniform (-3) 3 d.ulum2) (uniform (19/20) (21/20) d.ucon2)
        (Clip.fxColor (uniform (19/20) (21/20) d.uc2) clip)
  let processed :=
    if (1/2 : ℚ) < d.cropGate then
      let w : Nat := processed.size.1
      let h : Nat := processed.size.2
      let crop_factor := uniform (1/50) (1/20) d.ucropf
      let crop_pixels_w := (⌊(w : ℚ) * crop_factor⌋).toNat
      let crop_pixels_h := (⌊(h : ℚ) * crop_factor⌋).toNat
      Clip.cropC crop_pixels_w crop_pixels_h (w - crop_pixels_w) (h - crop_pixels_h) processed
    else processed
  if (30 : ℚ) < processed.duration then Clip.subclipC 0 30 processed else processed

/-- The per-variation loop of `process_video_variations` (lines 128-145):
each iteration builds one variation from the shared decoded clip, exports it
(which may fail: `exportOk` stands for the success of
`export_video_with_metadata`), and appends the exported bytes; a failed export
raises and aborts the remaining iterations. -/
def process_video_loop (clip : Clip) (draws : Nat → VideoDraws) (exportOk : Clip → Bool) :
    Nat → Nat → Except Err (List Bytes)
| 0, _ => Except.ok []
| n + 1, i =>
  let processed_clip := create_video_variation clip i (draws i)
  if exportOk processed_clip then
    match process_video_loop clip draws exportOk n (i + 1) with
    | Except.ok rest => Except.ok (Bytes.mp4 processed_clip :: rest)
    | Except.error e => Except.error e
  else Except.error Err.exportError

/-- `process_video_variations(input_bytes, variation_count)` (lines 109-154):
the moviepy-availability guard, the decode of the written input file
(`decodeClip` stands for `mpy.VideoFileClip`, whose failure raises), then the
per-variation loop. -/
def process_video_variations (videoSupport : Bool) (decodeClip : Bytes → Option Clip)
    (input_bytes : Bytes) (variation_count : ℤ) (draws : Nat → VideoDraws)
    (exportOk : Clip → Bool) : Except Err (List Bytes) :=
  if videoSupport then
    match decodeClip input_bytes with
    | none => Except.error Err.decodeError
    | some clip => process_video_loop clip draws exportOk variation_count.toNat 0
  else Except.error Err.videoUnsupported

/-- One named entry of a zip archive. -/
structure ZEntry where
  name : List Char
  data : Bytes
deriving DecidableEq

/-- Python `name.rsplit(".", 1)` restricted to names that contain a dot:
`some (base, ext)` splits at the last dot, `none` means the name has no dot. -/
def rsplitDot : List Char → Option (List Char × List Char)
| [] => none
| c :: cs =>
  match rsplitDot cs with
  | some (b, e) => some (c :: b, e)
  | none => if c = '.' then some ([], cs) else none

/-- Character-wise ASCII lowercasing, as `str.lower` acts on the names here. -/
def lowerList (l : List Char) : List Char := l.map Char.toLower

/-- Line 376: the lowercased extension of a name, or the empty string when the
name contains no dot. -/
def entryExt (name : List Char) : List Char :=
  match rsplitDot name with
  | some (_, e) => lowerList e
  | none => []

/-- Line 379: `name.rsplit(".", 1)[0]`, the part of the name before the last
dot (only consulted on names that contain a dot). -/
def entryBase (name : List Char) : List Char :=
  match rsplitDot name with
  | some (b, _) => b
  | none => name

/-- Line 373: `name.endswith("/")`, the directory-entry marker. -/
def endsWithSlash (name : List Char) : Bool := name.getLast? == some '/'

/-- Line 377: the recognized raster image extensions. -/
def imageExts : List (List Char) :=
  ["jpg".toList, "jpeg".toList, "png".toList, "bmp".toList, "tiff".toList, "gif".toList]

/-- The entry loop of `zip_handler` (lines 369-382): directory entries are
skipped; entries with a recognized image extension are run through
`generate_variations` with count 1 and re-inserted as
`{base}_processed.jpg`; every other entry is copied through unchanged.  The
second argument threads the ambient random draws, one record per transformed
entry.  A decode failure of an image-named entry propagates (the source has no
per-entry handler), and the impossible empty result of a count-1 call is mapped
to the decode error for totality. -/
def zip_handler (decode : Bytes → Option (Nat × Nat)) (draws : Nat → Draws) :
    List ZEntry → Nat → Except Err (List ZEntry)
| [], _ => Except.ok []
| e :: rest, i =>
  if endsWithSlash e.name then zip_handler decode draws rest i
  else if entryExt e.name ∈ imageExts then
    match generate_variations decode e.data 1 (1/5) (fun _ => draws i) with
    | Except.error er => Except.error er
    | Except.ok [] => Except.error Err.decodeError
    | Except.ok (buf :: _) =>
      match zip_handler decode draws rest (i + 1) with
      | Except.error er => Except.error er
      | Except.ok out =>
          Except.ok (ZEntry.mk (entryBase e.name ++ ("_processed.jpg").toList) (Bytes.jpeg buf) :: out)
  else
    match zip_handler decode draws rest i with
    | Except.error er => Except.error er
    | Except.ok out => Except.ok (e :: out)

/-- The output archive `zip_handler` produces when every image-named entry
decodes: directory entries dropped, image-named entries replaced by their
single transformed encoding under the renamed name, all other entries kept. -/
def zip_expected (decode : Bytes → Option (Nat × Nat)) (draws : Nat → Draws) :
    List ZEntry → Nat → List ZEntry
| [], _ => []
| e :: rest, i =>
  if endsWithSlash e.name then zip_expected decode draws rest i
  else if entryExt e.name ∈ imageExts then
    (match decode e.data with
     | some (w, h) =>
         ZEntry.mk (entryBase e.name ++ ("_processed.jpg").toList)
           (Bytes.jpeg (applyVariation w h (mkPlan (draws i))))
     | none => e) :: zip_expected decode draws rest (i + 1)
  else e :: zip_expected decode draws rest i

/-- The per-entry contract of the batch processor, relating a surviving input
entry to its output entry: an image-named entry becomes exactly one
transformed encoding under the renamed (collision-free) name; any other entry
is kept byte-for-byte under its original name. -/
def entryRel (decode : Bytes → Option (Nat × Nat)) (draws : Nat → Draws)
    (e o : ZEntry) : Prop :=
  if entryExt e.name ∈ imageExts then
    o.name = entryBase e.name ++ ("_processed.jpg").toList ∧
    o.name ≠ e.name ∧
    ∃ w h j, decode e.data = some (w, h) ∧
      o.data = Bytes.jpeg (applyVariation w h (mkPlan (draws j)))
  else o = e

/-- numpy `astype(np.int16)` on the magnitudes involved here: truncation
toward zero (the draws are far below the int16 range, so no wraparound). -/
def astype_int16 (x : ℚ) : ℤ := if 0 ≤ x then ⌊x⌋ else ⌈x⌉

/-- Lines 96-98, pixelwise on a flattened channel array:
`np.clip(arr + np.random.normal(0, 0.2, shape).astype(np.int16), 0, 255)`.
`arr` holds the uint8 pixel values widened to integers and `noise` the real
Gaussian draws before the int16 cast. -/
def noise_step (arr : List ℤ) (noise : List ℚ) : List ℤ :=
  List.zipWith (fun a g => min 255 (max 0 (a + astype_int16 g))) arr noise

/-- Modelled from the spec: the operation order the spec asserts for the image
pipeline, including the four chained enhancement passes and the additional
fixed sharpening pass between the noise step and the encode. -/
def claimed_image_step_order : List StepTag :=
  [StepTag.resizeT, StepTag.rotateT, StepTag.gainT, StepTag.translateT,
   StepTag.brightT, StepTag.contrastT, StepTag.colorT, StepTag.sharpT,
   StepTag.filterT, StepTag.noiseT, StepTag.sharpT, StepTag.encodeT]

/-- Modelled from the spec: a per-variation JPEG quality drawn from
`DiscreteUniform(85, 96)`, with `u` the draw. -/
def spec_encode_quality (u : Nat) : Nat := 85 + u % 12

/-- An all-zero draw record, used for concrete evaluations. -/
def dZero : Draws := ⟨0, 0, 0, 0, 0, 0, 0, 0, 0, 0, 0, 0⟩

/-- A draw record whose resize draw is 1/8, giving the factor 0.985. -/
def dEighth : Draws := ⟨1/8, 0, 0, 0, 0, 0, 0, 0, 0, 0, 0, 0⟩

/-- A constant draw stream. -/
def drawsZero : Nat → Draws := fun _ => dZero

/-- A decoder that reports a 100 by 100 source for any bytes. -/
def decode100 : Bytes → Option (Nat × Nat) := fun _ => some (100, 100)

/-- A decoder that rejects any bytes. -/
def decodeNone : Bytes → Option (Nat × Nat) := fun _ => none

/-- A concrete raw input blob. -/
def inputBlob : Bytes := Bytes.raw [1, 2, 3]

/-- The list `generate_variations decode100 inputBlob 3 (1/5) drawsZero`
returns, written as the source builds it. -/
def variationsThree : List Buffer :=
  (List.range (3 : ℤ).toNat).map fun i => applyVariation 100 100 (mkPlan (drawsZero i))

/-- The list `generate_variations decode100 inputBlob 6 (1/5) drawsZero`
returns, written as the source builds it. -/
def variationsSix : List Buffer :=
  (List.range (6 : ℤ).toNat).map fun i => applyVariation 100 100 (mkPlan (drawsZero i))

/-- An all-zero video draw record (its crop gate 0 keeps the crop branch
closed). -/
def vdZero : VideoDraws := ⟨0, 0, 0, 0, 0, 0, 0, 0, 0⟩

/-- A constant video draw stream. -/
def vdrawsZero : Nat → VideoDraws := fun _ => vdZero

/-- A concrete decoded clip: 100 by 100 frames, 10 seconds, no reported fps. -/
def clipTen : Clip := Clip.source 100 100 10 none

/-- A clip decoder that yields `clipTen` for any bytes. -/
def decodeClipTen : Bytes → Option Clip := fun _ => some clipTen

/-- An export oracle that always succeeds. -/
def exportAlways : Clip → Bool := fun _ => true

/-- The list `process_video_variations true decodeClipTen inputBlob 2
vdrawsZero exportAlways` returns, written as the loop builds it. -/
def videoVariationsTwo : List Bytes :=
  [Bytes.mp4 (create_video_variation clipTen 0 (vdrawsZero 0)),
   Bytes.mp4 (create_video_variation clipTen 1 (vdrawsZero 1))]

/-- A concrete archive: a directory marker, an image-named entry, and a plain
text entry. -/
def archiveEntries : List ZEntry :=
  [ZEntry.mk ("photos/").toList (Bytes.raw []),
   ZEntry.mk ("photos/a.JPG").toList (Bytes.raw [7]),
   ZEntry.mk ("notes.txt").toList (Bytes.raw [8])]

/-- Helper: the video loop yields one exported buffer per iteration when it
succeeds. -/
theorem process_video_loop_length (clip : Clip) (draws : Nat → VideoDraws)
    (exportOk : Clip → Bool) :
    ∀ (n i : Nat) (l : List Bytes),
      process_video_loop clip draws exportOk n i = Except.ok l → l.length = n := by
  intro n
  induction n with
  | zero =>
    intro i l h
    simp only [process_video_loop] at h
    injection h with h
    subst h
    rfl
  | succ k ih =>
    intro i l h
    simp only [process_video_loop] at h
    by_cases hexp : exportOk (create_video_variation clip i (draws i)) = true
    · rw [if_pos hexp] at h
      cases hrec : process_video_loop clip draws exportOk k (i + 1) with
      | ok rest =>
        rw [hrec] at h
        injection h with h
        subst h
        simp [ih (i + 1) rest hrec]
      | error e =>
        rw [hrec] at h
        cases h
    · rw [if_neg hexp] at h
      cases h

/-- Claim C1: for every decodable input image and every requested count in
1..5, `generate_variations` returns on success exactly `count` encoded JPEG
buffers, the i-th being the i-th variation in index order; and
`process_video_variations` returns exactly `variation_count` exported buffers
on success.  Neither path can return a shorter list without an error. -/
theorem variation_output_counts :
    (∀ (decode : Bytes → Option (Nat × Nat)) (input : Bytes) (count : ℤ) (m : ℚ)
       (draws : Nat → Draws) (w h : Nat) (l : List Buffer),
       decode input = some (w, h) → 1 ≤ count → count ≤ 5 →
       generate_variations decode input count m draws = Except.ok l →
       (l.length : ℤ) = count ∧
         ∀ i : Nat, i < l.length →
           l[i]? = some (applyVariation w h (mkPlan (draws i)))) ∧
    (∀ (videoSupport : Bool) (decodeClip : Bytes → Option Clip) (input : Bytes)
       (count : ℤ) (vdraws : Nat → VideoDraws) (exportOk : Clip → Bool) (l : List Bytes),
       process_video_variations videoSupport decodeClip input count vdraws exportOk =
         Except.ok l →
       l.length = count.toNat) := by
  constructor
  · intro decode input count m draws w h l hdec h1 h5 hok
    simp only [generate_variations, hdec] at hok
    injection hok with hok
    subst hok
    constructor
    · simp only [List.length_map, List.length_range]
      omega
    · intro i hi
      simp only [List.length_map, List.length_range] at hi
      simp [List.getElem?_map, List.getElem?_range, hi]
  · intro videoSupport decodeClip input count vdraws exportOk l hok
    cases videoSupport with
    | false =>
      simp only [process_video_variations] at hok
      cases hok
    | true =>
      simp only [process_video_variations, if_pos] at hok
      cases hdc : decodeClip input with
      | none => rw [hdc] at hok; cases hok
      | some clip =>
        rw [hdc] at hok
        exact process_video_loop_length clip vdraws exportOk count.toNat 0 l hok

/-- Witness for C1: the image path at count 3 and the video path at count 2,
both with concrete decoders and draw streams. -/
theorem variation_output_counts_witness :
    ((variationsThree.length : ℤ) = 3) ∧ (videoVariationsTwo.length = (2 : ℤ).toNat) :=
  ⟨(variation_output_counts.1 decode100 inputBlob 3 (1/5) drawsZero 100 100
      variationsThree rfl (by norm_num) (by norm_num) rfl).1,
   variation_output_counts.2 true decodeClipTen inputBlob 2 vdrawsZero exportAlways
      videoVariationsTwo rfl⟩

/-- Counterexample to C2: with a decodable source, the out-of-range count 0 is
not rejected: the call returns the degenerate empty list with no error, and
count 6 is likewise processed to completion, returning six buffers. -/
theorem count_zero_and_six_processed :
    generate_variations decode100 inputBlob 0 (1/5) drawsZero = Except.ok [] ∧
    generate_variations decode100 inputBlob 6 (1/5) drawsZero = Except.ok variationsSix ∧
    variationsSix.length = 6 := by
  refine ⟨rfl, rfl, ?_⟩
  simp [variationsSix]

/-- Claim C2 (amended): the variation entry point performs no validation of
the requested count: for every integer count and any decodable source it
returns, without error, the full list of `max count 0` variations. -/
theorem generate_variations_any_count :
    ∀ (decode : Bytes → Option (Nat × Nat)) (input : Bytes) (count : ℤ) (m : ℚ)
      (draws : Nat → Draws) (w h : Nat),
      decode input = some (w, h) →
      generate_variations decode input count m draws =
        Except.ok ((List.range count.toNat).map fun i =>
          applyVariation w h (mkPlan (draws i))) ∧
      ((List.range count.toNat).map fun i =>
          applyVariation w h (mkPlan (draws i))).length = count.toNat := by
  intro decode input count m draws w h hdec
  constructor
  · simp [generate_variations, hdec]
  · simp

/-- Witness for the amended C2 at count 6. -/
theorem generate_variations_any_count_witness :
    generate_variations decode100 inputBlob 6 (1/5) drawsZero =
      Except.ok ((List.range (6 : ℤ).toNat).map fun i =>
        applyVariation 100 100 (mkPlan (drawsZero i))) ∧
    ((List.range (6 : ℤ).toNat).map fun i =>
        applyVariation 100 100 (mkPlan (drawsZero i))).length = (6 : ℤ).toNat :=
  generate_variations_any_count decode100 inputBlob 6 (1/5) drawsZero 100 100 rfl

/-- Claim C10: `generate_variations` checks nothing about the count at its
boundary: with a decodable source any non-positive count returns the empty
list without error, and with an undecodable source every count, zero included,
raises the decode error, because the source is decoded before the loop. -/
theorem generate_variations_zero_count_behavior :
    (∀ (decode : Bytes → Option (Nat × Nat)) (input : Bytes) (m : ℚ)
       (draws : Nat → Draws) (count : ℤ) (w h : Nat),
       decode input = some (w, h) → count ≤ 0 →
       generate_variations decode input count m draws = Except.ok []) ∧
    (∀ (decode : Bytes → Option (Nat × Nat)) (input : Bytes) (m : ℚ)
       (draws : Nat → Draws) (count : ℤ),
       decode input = none →
       generate_variations decode input count m draws = Except.error Err.decodeError) := by
  constructor
  · intro decode input m draws count w h hdec hc
    have h0 : count.toNat = 0 := by omega
    simp [generate_variations, hdec, h0]
  · intro decode input m draws count hdec
    simp [generate_variations, hdec]

/-- Witness for C10: count 0 with a decodable source, and count 0 with an
undecodable source. -/
theorem generate_variations_zero_count_behavior_witness :
    generate_variations decode100 inputBlob 0 (1/5) drawsZero = Except.ok [] ∧
    generate_variations decodeNone inputBlob 0 (1/5) drawsZero =
      Except.error Err.decodeError :=
  ⟨generate_variations_zero_count_behavior.1 decode100 inputBlob (1/5) drawsZero 0 100 100
      rfl (by norm_num),
   generate_variations_zero_count_behavior.2 decodeNone inputBlob (1/5) drawsZero 0 rfl⟩

/-- Counterexample to C3: the operation trace a produced buffer records
differs from the spec's claimed order — the brightness, contrast and color
passes are absent from the dataflow that reaches the encode, and there is no
additional sharpening pass between the noise step and the encode. -/
theorem image_trace_ne_claimed :
    Buffer.trace (applyVariation 100 100 (mkPlan dZero)) ≠ claimed_image_step_order := by
  decide

/-- Claim C3 (amended): for every source size and plan, the pipeline applies
exactly: resize, rotate without canvas expansion, per-channel gain, integer
translation, one sharpness enhancement (the brightness, contrast and color
enhancements are each computed from the translation output and their results
discarded, because all four enhancer objects capture the same image), one
chosen spatial filter, the clipped Gaussian noise, and the lossy encode; no
additional sharpening pass exists. -/
theorem image_pipeline_trace :
    ∀ (w h : Nat) (p : Plan),
      Buffer.trace (applyVariation w h p) =
        [StepTag.resizeT, StepTag.rotateT, StepTag.gainT, StepTag.translateT,
         StepTag.sharpT, StepTag.filterT, StepTag.noiseT, StepTag.encodeT] := by
  intro w h p
  rfl

/-- Helper: the output size of one variation is the floor-resized pair, since
every step after the resize preserves the canvas. -/
theorem applyVariation_size (w h : Nat) (p : Plan) :
    (applyVariation w h p).size = (resizedDim w p.factor, resizedDim h p.factor) := rfl

/-- Helper: a floor-resized dimension for a factor in [0.98, 1.02] is at most
1.02 times the source dimension and exceeds 0.98 times it minus one pixel. -/
theorem resizedDim_bounds (s : Nat) (f : ℚ) (h1 : 49/50 ≤ f) (h2 : f ≤ 51/50) :
    ((resizedDim s f : ℕ) : ℚ) ≤ 51/50 * s ∧
      49/50 * s - 1 < ((resizedDim s f : ℕ) : ℚ) := by
  have hs : (0:ℚ) ≤ (s:ℚ) := Nat.cast_nonneg s
  have hf0 : (0:ℚ) ≤ f := le_trans (by norm_num) h1
  have hx0 : (0:ℚ) ≤ (s:ℚ) * f := mul_nonneg hs hf0
  have hfl0 : (0:ℤ) ≤ ⌊(s:ℚ) * f⌋ := Int.floor_nonneg.mpr hx0
  have hcast : ((resizedDim s f : ℕ) : ℚ) = ((⌊(s:ℚ) * f⌋ : ℤ) : ℚ) := by
    unfold resizedDim
    exact_mod_cast congrArg (fun z : ℤ => (z : ℚ)) (Int.toNat_of_nonneg hfl0)
  rw [hcast]
  constructor
  · calc ((⌊(s:ℚ) * f⌋ : ℤ) : ℚ) ≤ (s:ℚ) * f := Int.floor_le _
      _ ≤ (s:ℚ) * (51/50) := mul_le_mul_of_nonneg_left h2 hs
      _ = 51/50 * s := by ring
  · have hlow : (s:ℚ) * (49/50) ≤ (s:ℚ) * f := mul_le_mul_of_nonneg_left h1 hs
    have hfl := Int.sub_one_lt_floor ((s:ℚ) * f)
    linarith

/-- Counterexample to C5: a 99-pixel source dimension resized with the legal
draw factor 0.985 becomes 97 pixels, which is strictly below 98 percent of the
source (97.02): the floor rounding leaves the claimed two-percent band. -/
theorem resize_leaves_two_percent_band :
    (applyVariation 99 99 (mkPlan dEighth)).size.1 = 97 ∧
      ((97 : ℚ) < 49/50 * 99) := by
  constructor
  · show resizedDim 99 (mkPlan dEighth).factor = 97
    have hf : (mkPlan dEighth).factor = 197/200 := by
      norm_num [mkPlan, dEighth, uniform]
    rw [hf]
    unfold resizedDim
    norm_num
    rfl
  · norm_num

/-- Claim C5 (amended): for every source size and every plan whose resize
factor lies in [0.98, 1.02], each output dimension is at most 1.02 times the
source dimension and strictly greater than 0.98 times it minus one pixel (the
truncation of `int(...)` can dip up to one pixel below the exact two-percent
band, and no further). -/
theorem applyVariation_size_within_band :
    ∀ (w h : Nat) (p : Plan), 49/50 ≤ p.factor → p.factor ≤ 51/50 →
      (((applyVariation w h p).size.1 : ℚ) ≤ 51/50 * w ∧
        49/50 * w - 1 < ((applyVariation w h p).size.1 : ℚ)) ∧
      (((applyVariation w h p).size.2 : ℚ) ≤ 51/50 * h ∧
        49/50 * h - 1 < ((applyVariation w h p).size.2 : ℚ)) := by
  intro w h p h1 h2
  exact ⟨resizedDim_bounds w p.factor h1 h2, resizedDim_bounds h p.factor h1 h2⟩

/-- Witness for the amended C5 at a 100 by 100 source and the draw 0 (resize
factor 0.98). -/
theorem applyVariation_size_within_band_witness :
    (((applyVariation 100 100 (mkPlan dZero)).size.1 : ℚ) ≤ 51/50 * ((100:ℕ) : ℚ) ∧
      49/50 * ((100:ℕ) : ℚ) - 1 < ((applyVariation 100 100 (mkPlan dZero)).size.1 : ℚ)) ∧
    (((applyVariation 100 100 (mkPlan dZero)).size.2 : ℚ) ≤ 51/50 * ((100:ℕ) : ℚ) ∧
      49/50 * ((100:ℕ) : ℚ) - 1 < ((applyVariation 100 100 (mkPlan dZero)).size.2 : ℚ)) :=
  applyVariation_size_within_band 100 100 (mkPlan dZero)
    (by norm_num [mkPlan, dZero, uniform]) (by norm_num [mkPlan, dZero, uniform])

/-- Counterexample to C6: with modification_level 1/20 the claim puts every
enhancement factor inside [0.95, 1.05], but the plan generator draws the
brightness factor from the hardcoded interval and can produce 0.9. -/
theorem enhancement_factor_outside_claimed_interval :
    (mkPlan dZero).brightness = 9/10 ∧ ¬ (1 - 1/20 ≤ ((9:ℚ)/10)) := by
  constructor
  · norm_num [mkPlan, dZero, uniform]
  · norm_num

/-- Claim C6 (amended): each of the four enhancement factors is drawn from the
fixed interval [0.9, 1.1], independent of the caller's modification_level; the
modification_level argument is never consulted, so the entry point's output is
identical under any two modification levels. -/
theorem enhancement_factors_fixed_interval :
    (∀ (d : Draws),
      (0 ≤ d.ubr → d.ubr ≤ 1 →
        9/10 ≤ (mkPlan d).brightness ∧ (mkPlan d).brightness ≤ 11/10) ∧
      (0 ≤ d.uco → d.uco ≤ 1 →
        9/10 ≤ (mkPlan d).contrast ∧ (mkPlan d).contrast ≤ 11/10) ∧
      (0 ≤ d.ucl → d.ucl ≤ 1 →
        9/10 ≤ (mkPlan d).color ∧ (mkPlan d).color ≤ 11/10) ∧
      (0 ≤ d.ush → d.ush ≤ 1 →
        9/10 ≤ (mkPlan d).sharpness ∧ (mkPlan d).sharpness ≤ 11/10)) ∧
    (∀ (decode : Bytes → Option (Nat × Nat)) (input : Bytes) (count : ℤ) (m mp : ℚ)
       (draws : Nat → Draws),
       generate_variations decode input count m draws =
         generate_variations decode input count mp draws) := by
  constructor
  · intro d
    refine ⟨?_, ?_, ?_, ?_⟩ <;> intro hu0 hu1 <;> constructor <;>
      simp only [mkPlan, uniform] <;> nlinarith
  · intro decode input count m mp draws
    rfl

/-- Witness for the amended C6: the all-zero draw record and the two
modification levels 1/20 and 1/5. -/
theorem enhancement_factors_fixed_interval_witness :
    (9/10 ≤ (mkPlan dZero).brightness ∧ (mkPlan dZero).brightness ≤ 11/10) ∧
    generate_variations decode100 inputBlob 3 (1/20) drawsZero =
      generate_variations decode100 inputBlob 3 (1/5) drawsZero :=
  ⟨((enhancement_factors_fixed_interval.1 dZero).1) (by norm_num [dZero]) (by norm_num [dZero]),
   enhancement_factors_fixed_interval.2 decode100 inputBlob 3 (1/20) (1/5) drawsZero⟩

/-- Counterexample to C7: the encode quality of produced buffers is the fixed
constant 95 under two different draw streams and no subsampling mode is
chosen, while the spec-modelled per-variation quality draw varies over 85..96
and in particular differs from 95 at draw 0. -/
theorem encode_quality_fixed :
    (applyVariation 100 100 (mkPlan dZero)).quality = 95 ∧
    (applyVariation 99 50 (mkPlan dEighth)).quality = 95 ∧
    (applyVariation 100 100 (mkPlan dZero)).subsampling = none ∧
    spec_encode_quality 0 = 85 ∧ spec_encode_quality 1 = 86 :=
  ⟨rfl, rfl, rfl, rfl, rfl⟩

/-- Claim C7 (amended): the JPEG encode parameters are fixed constants for
every variation: quality 95, optimize enabled, and no chroma-subsampling
choice (the encoder default is always used); none of them vary across
variations or draws. -/
theorem encode_parameters_fixed :
    ∀ (w h : Nat) (p : Plan),
      (applyVariation w h p).quality = 95 ∧
      (applyVariation w h p).optimize = true ∧
      (applyVariation w h p).subsampling = none := by
  intro w h p
  exact ⟨rfl, rfl, rfl⟩

/-- Counterexample to C8: at variation index 4 (reachable with count 5) the
source applies the milder combination class, while the index-mod-4 selection
the spec describes would apply the color-only class again. -/
theorem video_effect_index_four_ne_mod :
    create_video_variation clipTen 4 vdZero ≠
      create_video_variation_by_mod clipTen 4 vdZero := by
  norm_num [create_video_variation, create_video_variation_by_mod, Clip.duration,
    clipTen, vdZero]
  intro hk
  exact Clip.noConfusion hk

/-- Claim C8 (amended): the effect class is chosen by direct equality tests on
the variation index: indices 0, 1 and 2 receive the color-only,
luminance/contrast and gamma classes exactly as the index-mod-4 rule says, but
every index of 3 or more — index 4 included — receives the milder combination
class; the selection agrees with `min index 3`, not with `index mod 4`. -/
theorem video_effect_selection :
    (∀ (clip : Clip) (d : VideoDraws) (i : Nat), 3 ≤ i →
      create_video_variation clip i d = create_video_variation clip 3 d) ∧
    (∀ (clip : Clip) (d : VideoDraws) (i : Nat), i < 4 →
      create_video_variation clip i d = create_video_variation_by_mod clip i d) := by
  constructor
  · intro clip d i h3
    have h0 : ¬ (i = 0) := by omega
    have h1 : ¬ (i = 1) := by omega
    have h2 : ¬ (i = 2) := by omega
    simp [create_video_variation, h0, h1, h2]
  · intro clip d i h4
    interval_cases i <;> simp [create_video_variation, create_video_variation_by_mod]

/-- Witness for the amended C8 at indices 4 and 2 on a concrete clip. -/
theorem video_effect_selection_witness :
    create_video_variation clipTen 4 vdZero = create_video_variation clipTen 3 vdZero ∧
    create_video_variation clipTen 2 vdZero =
      create_video_variation_by_mod clipTen 2 vdZero :=
  ⟨video_effect_selection.1 clipTen vdZero 4 (by norm_num),
   video_effect_selection.2 clipTen vdZero 2 (by norm_num)⟩

/-- Claim C4 (code evaluated at the failing scenario): the noise step of lines
96-98 is the identity on any valid pixel array whenever every Gaussian draw
has magnitude below one, because the `astype(np.int16)` cast truncates every
such draw to zero before the addition.  With the source's sigma of 0.2 a draw
reaches magnitude one only at five standard deviations, so on the 100 by 100
solid-color scenario the step changes no pixel with overwhelming probability
and contributes no variance. -/
theorem noise_step_identity :
    ∀ (arr : List ℤ) (noise : List ℚ),
      arr.length = noise.length →
      (∀ a ∈ arr, 0 ≤ a ∧ a ≤ 255) →
      (∀ g ∈ noise, -1 < g ∧ g < 1) →
      noise_step arr noise = arr := by
  intro arr
  induction arr with
  | nil =>
    intro noise hlen ha hg
    simp [noise_step]
  | cons a as ih =>
    intro noise hlen ha hg
    cases noise with
    | nil => simp at hlen
    | cons g gs =>
      have hg0 := hg g (List.mem_cons_self g gs)
      have ha0 := ha a (List.mem_cons_self a as)
      have htr : astype_int16 g = 0 := by
        unfold astype_int16
        rcases le_or_lt 0 g with hge | hlt
        · rw [if_pos hge, Int.floor_eq_zero_iff]
          exact Set.mem_Ico.mpr ⟨hge, hg0.2⟩
        · rw [if_neg (not_le.mpr hlt), Int.ceil_eq_zero_iff]
          exact Set.mem_Ioc.mpr ⟨hg0.1, le_of_lt hlt⟩
      have hhead : min 255 (max 0 (a + astype_int16 g)) = a := by
        rw [htr, add_zero, max_eq_right ha0.1, min_eq_right ha0.2]
      simp only [noise_step, List.zipWith_cons_cons]
      rw [hhead]
      congr 1
      exact ih gs (by simpa using hlen)
        (fun x hx => ha x (List.mem_cons_of_mem a hx))
        (fun x hx => hg x (List.mem_cons_of_mem g hx))

/-- Witness for the C4 noise-step theorem on a concrete solid-gray-style
array and sub-unit Gaussian draws. -/
theorem noise_step_identity_witness :
    noise_step [0, 128, 255] [1/2, -(1/2), 9/10] = [0, 128, 255] :=
  noise_step_identity [0, 128, 255] [1/2, -(1/2), 9/10] rfl (by decide) (by norm_num)

/-- Helper: a successful rsplit at the last dot reassembles to the original
name. -/
theorem rsplitDot_eq (name : List Char) :
    ∀ b e, rsplitDot name = some (b, e) → name = b ++ '.' :: e := by
  induction name with
  | nil => intro b e h; simp [rsplitDot] at h
  | cons c cs ih =>
    intro b e h
    simp only [rsplitDot] at h
    cases hrec : rsplitDot cs with
    | some pair =>
      obtain ⟨b0, e0⟩ := pair
      rw [hrec] at h
      injection h with h
      injection h with h1 h2
      subst h1
      subst h2
      simp [List.cons_append, ih b0 e0 hrec]
    | none =>
      rw [hrec] at h
      by_cases hc : c = '.'
      · rw [if_pos hc] at h
        injection h with h
        injection h with h1 h2
        subst h1
        subst h2
        subst hc
        rfl
      · rw [if_neg hc] at h
        cases h

/-- Helper: the renamed output of an image-named entry never collides with the
original name, since the original continues with a dot where the output
continues with an underscore. -/
theorem processed_name_ne (name : List Char) (h : entryExt name ∈ imageExts) :
    entryBase name ++ ("_processed.jpg").toList ≠ name := by
  intro heq
  cases hs : rsplitDot name with
  | none =>
    rw [entryExt, hs] at h
    simp [imageExts] at h
  | some pair =>
    obtain ⟨b, e⟩ := pair
    have hname := rsplitDot_eq name b e hs
    rw [entryBase, hs, hname] at heq
    have hsuf := List.append_cancel_left heq
    rw [show ("_processed.jpg").toList = '_' :: ("processed.jpg").toList from rfl] at hsuf
    injection hsuf with h1 h2
    exact absurd h1 (by decide)

/-- Claim C9: the batch processor skips directory entries; every non-directory
entry with a recognized raster image extension is replaced by exactly one
transformed encoding under the renamed, collision-free name; and every other
non-directory entry appears in the output byte-for-byte under its original
name.  (The source has no per-entry failure handling, so the statement assumes
every image-named entry decodes.) -/
theorem zip_handler_routes_entries :
    ∀ (decode : Bytes → Option (Nat × Nat)) (draws : Nat → Draws) (entries : List ZEntry),
      (∀ e ∈ entries, endsWithSlash e.name = false → entryExt e.name ∈ imageExts →
        (decode e.data).isSome = true) →
      ∀ i : Nat,
        zip_handler decode draws entries i =
          Except.ok (zip_expected decode draws entries i) ∧
        List.Forall₂ (entryRel decode draws)
          (entries.filter fun e => ! endsWithSlash e.name)
          (zip_expected decode draws entries i) := by
  intro decode draws entries
  induction entries with
  | nil =>
    intro hdec i
    exact ⟨rfl, List.Forall₂.nil⟩
  | cons e rest ih =>
    intro hdec i
    have hdecR : ∀ x ∈ rest, endsWithSlash x.name = false →
        entryExt x.name ∈ imageExts → (decode x.data).isSome = true :=
      fun x hx => hdec x (List.mem_cons_of_mem e hx)
    by_cases hdir : endsWithSlash e.name = true
    · constructor
      · simp only [zip_handler, zip_expected, if_pos hdir]
        exact (ih hdecR i).1
      · simp only [zip_expected, if_pos hdir, List.filter_cons, hdir,
          Bool.not_true, Bool.false_eq_true, if_false]
        exact (ih hdecR i).2
    · have hdirf : endsWithSlash e.name = false := by
        cases hb : endsWithSlash e.name
        · rfl
        · exact absurd hb hdir
      by_cases himg : entryExt e.name ∈ imageExts
      · have hsome := hdec e (List.mem_cons_self e rest) hdirf himg
        obtain ⟨⟨w, h⟩, hwh⟩ := Option.isSome_iff_exists.mp hsome
        have hgen : generate_variations decode e.data 1 (1/5) (fun _ => draws i) =
            Except.ok [applyVariation w h (mkPlan (draws i))] := by
          simp [generate_variations, hwh]
        constructor
        · simp only [zip_handler, zip_expected, hdir, Bool.false_eq_true, if_false,
            if_pos himg, hgen, hwh, (ih hdecR (i + 1)).1]
        · simp only [zip_expected, hdir, Bool.false_eq_true, if_false, if_pos himg,
            hwh, List.filter_cons, hdirf, Bool.not_false, if_true]
          have hrel : entryRel decode draws e
              (ZEntry.mk (entryBase e.name ++ ("_processed.jpg").toList)
                (Bytes.jpeg (applyVariation w h (mkPlan (draws i))))) := by
            unfold entryRel
            rw [if_pos himg]
            exact ⟨rfl, processed_name_ne e.name himg, w, h, i, hwh, rfl⟩
          exact List.Forall₂.cons hrel ((ih hdecR (i + 1)).2)
      · constructor
        · simp only [zip_handler, zip_expected, hdir, Bool.false_eq_true, if_false,
            if_neg himg, (ih hdecR i).1]
        · simp only [zip_expected, hdir, if_false, if_neg himg, List.filter_cons,
            hdirf, Bool.not_false, if_true]
          refine List.Forall₂.cons ?_ ((ih hdecR i).2)
          simp only [entryRel, if_neg himg]

/-- Witness for C9 on a concrete archive holding a directory marker, an
image-named entry and a text entry, with a total decoder. -/
theorem zip_handler_routes_entries_witness :
    zip_handler decode100 drawsZero archiveEntries 0 =
      Except.ok (zip_expected decode100 drawsZero archiveEntries 0) ∧
    List.Forall₂ (entryRel decode100 drawsZero)
      (archiveEntries.filter fun e => ! endsWithSlash e.name)
      (zip_expected decode100 drawsZero archiveEntries 0) :=
  zip_handler_routes_entries decode100 drawsZero archiveEntries
    (fun e he h1 h2 => rfl) 0
